import Mathlib

/-!
# Verification of the `variante` crate (`variant!` macro)

Shallow embedding of the single `macro_rules! variant` macro from `src/lib.rs`:

```
macro_rules! variant {
    ( $variant:ident @ $($enumeration:ident)::+ $(<$($generics:ty),+>)? ) => {{
        #[allow(unused)]
        fn assert_variant_exists( on: $($enumeration)::+ $(<$($generics),+>)? ) {
            matches!(on, $($enumeration)::+ :: $variant {..});
        }
        ::core::stringify!($variant)
    }};
}
```

The embedding has four layers, mirroring the host compiler pipeline:
* a token-level model of the macro's input grammar (`parse`), mirroring the
  matcher `$variant:ident @ $($enumeration:ident)::+ $(<$($generics:ty),+>)?`;
* the expansion itself (`expand`), a pure syntax rewrite producing a block
  expression holding the dead `assert_variant_exists` function item and the
  `stringify!($variant)` literal;
* a model of the host compiler's name-resolution / pattern-compatibility
  check (`typecheckExpr`) over a compile-time `Scope` of enum declarations
  visible at the call site;
* the runtime meaning of the expansion (`evalExpr`), which never invokes the
  generated function item.

`compileInv`/`compileTokens` glue these together: the result is `none` when
the build fails and `some s` when the invocation compiles and evaluates to
the static string `s`.
-/

/-- A concrete Rust type expression, as it can appear as a generic argument
(`$generics:ty`). The checker never inspects these beyond counting them, so a
small representative inductive suffices. -/
inductive Ty
  | unitTy
  | u8
  | i32
  | i64
  | named (s : String)
deriving DecidableEq, Repr

/-- The shape of the data carried by an enum variant: no data, tuple-style
data, or named-field (struct-style) data. -/
inductive FieldShape
  | unit
  | tuple (tys : List Ty)
  | record (fields : List (String × Ty))
deriving DecidableEq, Repr

/-- One variant of a Rust `enum` as the compiler sees it from the call site:
its source spelling, the shape of its data, and whether it is visible
(accessible) at the point of invocation. -/
structure VariantDecl where
  name : String
  shape : FieldShape
  visible : Bool
deriving DecidableEq, Repr

/-- A Rust `enum` declaration: its generic arity and its variants. -/
structure EnumDecl where
  arity : Nat
  variants : List VariantDecl
deriving DecidableEq, Repr

/-- The compile-time scope at the macro's call site: every path that resolves
to an enum declaration there. Several paths may resolve to the same
declaration (re-exports, nested modules). A type that is not in scope is
simply absent. -/
structure Scope where
  enums : List (List String × EnumDecl)
deriving DecidableEq, Repr

/-- Host-language path resolution at the call site: look the path up in the
scope, as the Rust compiler would resolve `$($enumeration)::+`. -/
def resolveEnum (sc : Scope) (p : List String) : Option EnumDecl :=
  (sc.enums.find? (fun e => e.1 == p)).map (·.2)

/-- The parsed form of a macro invocation `variant!(variant @ path<generics>)`:
the variant identifier, the (nonempty) type path, and the optional (nonempty)
generic-argument list. -/
structure Invocation where
  variant : String
  path : List String
  generics : Option (List Ty)
deriving DecidableEq, Repr

/-- A token of the macro's input, at the granularity `macro_rules!` matchers
operate on: identifiers, `@`, `::`, angle brackets, commas, and matched
`:ty` fragments. -/
inductive Token
  | ident (s : String)
  | atSign
  | pathSep
  | langle
  | rangle
  | comma
  | tyTok (t : Ty)
deriving DecidableEq, Repr

/-- Parse `$($enumeration:ident)::+`: one identifier followed by zero or more
`:: identifier` pairs. Returns the segments and the remaining tokens. -/
def parsePath : List Token → Option (List String × List Token)
  | Token.ident s :: Token.pathSep :: rest =>
      match parsePath rest with
      | some (segs, rem) => some (s :: segs, rem)
      | none => none
  | Token.ident s :: rest => some ([s], rest)
  | _ => none

/-- Parse the inside of `<$($generics:ty),+>`: one or more `:ty` fragments
separated by commas (no trailing comma), terminated by `>`. Mirrors the
`$(...),+` repetition, which requires at least one element and admits no
trailing separator. -/
def parseGenerics : List Token → Option (List Ty × List Token)
  | Token.tyTok t :: Token.comma :: rest =>
      match parseGenerics rest with
      | some (args, rem) => some (t :: args, rem)
      | none => none
  | Token.tyTok t :: Token.rangle :: rest => some ([t], rest)
  | _ => none

/-- The macro's whole input grammar
`$variant:ident @ $($enumeration:ident)::+ $(<$($generics:ty),+>)?`.
The entire token stream must be consumed; any leftover tokens, a missing
variant identifier or `@`, an empty path, an empty `<>`, or a trailing comma
inside `<...>` is a parse (expansion-time) failure. -/
def parse (ts : List Token) : Option Invocation :=
  match ts with
  | Token.ident v :: Token.atSign :: rest =>
      match parsePath rest with
      | none => none
      | some (p, rem) =>
          match rem with
          | [] => some ⟨v, p, none⟩
          | Token.langle :: rem2 =>
              match parseGenerics rem2 with
              | none => none
              | some (args, rem3) =>
              if rem3.isEmpty then some ⟨v, p, some args⟩ else none
          | _ => none
  | _ => none

/-- The body of the generated function: the single statement
`matches!(on, $($enumeration)::+ :: $variant {..});`. The `{..}` rest
pattern is implicit: the pattern binds nothing and ignores all fields. The
boolean produced by `matches!` is discarded by the trailing `;`. -/
structure MatchCheck where
  scrutineePath : List String
  variantName : String
deriving DecidableEq, Repr

/-- The generated item
`fn assert_variant_exists(on: $($enumeration)::+ $(<$($generics),+>)?) {...}`. -/
structure FnItem where
  name : String
  paramPath : List String
  paramGenerics : Option (List Ty)
  body : MatchCheck
deriving DecidableEq, Repr

/-- An item that an expansion can declare. -/
inductive Item
  | fnItem (f : FnItem)
deriving DecidableEq, Repr

/-- The name an item declares. -/
def itemName : Item → String
  | Item.fnItem f => f.name

/-- The expression fragment the macro expands to: a string literal, or a
block `{ items; tail }` whose items are scoped to the block itself. -/
inductive Expr
  | strLit (s : String)
  | block (items : List Item) (tail : Expr)
deriving DecidableEq, Repr

/-- Model of `::core::stringify!` applied to a single identifier: the literal holds
exactly the identifier's source spelling. -/
def stringify (s : String) : String := s

/-- The macro's transcriber: rewrite a parsed invocation into the block
`{{ fn assert_variant_exists(on: Path<Generics>) { matches!(on, Path::Variant {..}); } stringify!(Variant) }}`.
A pure syntax rewrite; it cannot fail. -/
def expand (inv : Invocation) : Expr :=
  Expr.block
    [Item.fnItem
      { name := "assert_variant_exists"
        paramPath := inv.path
        paramGenerics := inv.generics
        body := { scrutineePath := inv.path, variantName := inv.variant } }]
    (Expr.strLit (stringify inv.variant))

/-- Holds exactly when no two names in the list coincide; the host compiler rejects
two items of the same name declared directly in the same block. -/
def namesDistinct : List String → Bool
  | [] => true
  | n :: rest => !(rest.contains n) && namesDistinct rest

/-- Generic-argument arity check for a type used in a function signature:
a non-generic type takes no argument list, a generic type requires exactly
`arity` concrete arguments (the host language does not infer them there). -/
def genericsArityOk (E : EnumDecl) : Option (List Ty) → Bool
  | none => E.arity == 0
  | some args => args.length == E.arity

/-- Pattern-compatibility check for `Path::Variant {..}` against a value of
the enum: some variant with this name is declared on the enum and visible at
the call site. The variant's data shape is never consulted, because `{..}`
ignores all fields regardless of shape. -/
def variantPatternOk (E : EnumDecl) (v : String) : Bool :=
  E.variants.any (fun w => w.name == v && w.visible)

/-- Type-check the `matches!` statement: the pattern's path must resolve, it
must name the scrutinee's own type, and the named variant must exist and be
visible. -/
def typecheckMatch (sc : Scope) (scrTy : EnumDecl) (m : MatchCheck) : Bool :=
  match resolveEnum sc m.scrutineePath with
  | none => false
  | some E => decide (E = scrTy) && variantPatternOk E m.variantName

/-- Type-check the generated function item: its parameter type must resolve
at the call site with the right number of generic arguments, and its body
must type-check against that parameter type. -/
def typecheckFnItem (sc : Scope) (f : FnItem) : Bool :=
  match resolveEnum sc f.paramPath with
  | none => false
  | some E => genericsArityOk E f.paramGenerics && typecheckMatch sc E f.body

/-- Type-check one item. -/
def typecheckItem (sc : Scope) : Item → Bool
  | Item.fnItem f => typecheckFnItem sc f

/-- Type-check an expression: a literal always compiles; a block compiles
when its items have pairwise distinct names, every item compiles, and the
tail expression compiles. -/
def typecheckExpr (sc : Scope) : Expr → Bool
  | Expr.strLit _ => true
  | Expr.block items tail =>
      namesDistinct (items.map itemName) && items.all (typecheckItem sc)
        && typecheckExpr sc tail

/-- Runtime meaning of an expression. Items declared in a block are never
executed by evaluating the block — in particular the generated
`assert_variant_exists` is never invoked — so a block's value is its tail's
value. Evaluation is total: no runtime failure mode exists. -/
def evalExpr : Expr → String
  | Expr.strLit s => s
  | Expr.block _ tail => evalExpr tail

/-- Holds exactly when the expression can be evaluated in a compile-time constant
context: its value collapses to a literal (items impose no computation). -/
def isConstEvaluable : Expr → Bool
  | Expr.strLit _ => true
  | Expr.block _ tail => isConstEvaluable tail

/-- The fate of a parsed invocation: `none` when the expansion fails to
type-check (the build breaks at the call site), `some s` when it compiles,
in which case the invocation evaluates to the string `s`. -/
def compileInv (sc : Scope) (inv : Invocation) : Option String :=
  if typecheckExpr sc (expand inv) then some (evalExpr (expand inv)) else none

/-- The fate of a raw token stream: parse (macro expansion), then compile. -/
def compileTokens (sc : Scope) (ts : List Token) : Option String :=
  match parse ts with
  | none => none
  | some inv => compileInv sc inv

/-- A statement of the caller's enclosing block: either an item declared
directly in that block, or an expression statement (a macro invocation in
expression position is one of these). -/
inductive Stmt
  | itemStmt (it : Item)
  | exprStmt (e : Expr)
deriving DecidableEq, Repr

/-- The names a statement introduces into the enclosing block's scope. An
expression statement introduces none: any items it contains live inside its
own blocks. -/
def stmtTopLevelNames : Stmt → List String
  | Stmt.itemStmt it => [itemName it]
  | Stmt.exprStmt _ => []

/-- Type-check one caller-block statement. -/
def typecheckStmt (sc : Scope) : Stmt → Bool
  | Stmt.itemStmt it => typecheckItem sc it
  | Stmt.exprStmt e => typecheckExpr sc e

/-- Type-check the caller's block: the names declared directly in the block
are pairwise distinct and every statement compiles. -/
def typecheckCallerBlock (sc : Scope) (stmts : List Stmt) : Bool :=
  namesDistinct (stmts.map stmtTopLevelNames).flatten && stmts.all (typecheckStmt sc)

/-! ## Concrete declarations from the crate's tests and documentation -/

/-- The declaration `enum Enum { Foo, Bar(u8), Baz { x: i32 } }` (Scenario A / `tests::normal`). -/
def scenarioEnum : EnumDecl :=
  { arity := 0
    variants :=
      [ { name := "Foo", shape := FieldShape.unit, visible := true }
      , { name := "Bar", shape := FieldShape.tuple [Ty.u8], visible := true }
      , { name := "Baz", shape := FieldShape.record [("x", Ty.i32)], visible := true } ] }

/-- The declaration `enum GenericEnum<T, U> { Foo(T), Bar(U) }` (Scenario B / `tests::generic`). -/
def genericEnum : EnumDecl :=
  { arity := 2
    variants :=
      [ { name := "Foo", shape := FieldShape.tuple [Ty.named "T"], visible := true }
      , { name := "Bar", shape := FieldShape.tuple [Ty.named "U"], visible := true } ] }

/-- The declaration `mod fuga { pub enum Enum<T> { Foo(T) } }` (the Paths doc example). -/
def fugaEnum : EnumDecl :=
  { arity := 1
    variants := [ { name := "Foo", shape := FieldShape.tuple [Ty.named "T"], visible := true } ] }

/-- A call-site scope holding all three example enums; `fuga::Enum` is also
reachable directly as `Enum2` (a re-export), so the same declaration resolves
under two distinct paths. -/
def exampleScope : Scope :=
  { enums :=
      [ (["Enum"], scenarioEnum)
      , (["GenericEnum"], genericEnum)
      , (["fuga", "Enum"], fugaEnum)
      , (["Enum2"], fugaEnum) ] }

example : compileInv exampleScope ⟨"Foo", ["Enum"], none⟩ = some "Foo" := by decide
example : compileInv exampleScope ⟨"Baz", ["Enum"], none⟩ = some "Baz" := by decide
example : compileInv exampleScope ⟨"Hoge", ["Enum"], none⟩ = none := by decide
example : compileInv exampleScope ⟨"Foo", ["NonExistent"], none⟩ = none := by decide
example :
    compileInv exampleScope ⟨"Bar", ["GenericEnum"], some [Ty.i32, Ty.i64]⟩ = some "Bar" := by
  decide
example : compileInv exampleScope ⟨"Foo", ["fuga", "Enum"], some [Ty.unitTy]⟩ = some "Foo" := by
  decide
example :
    parse [Token.ident "Foo", Token.atSign, Token.ident "E", Token.langle, Token.rangle]
      = none := by decide

/-! ## Helper lemmas -/

/-- The expansion's runtime value is the stringified variant identifier. -/
lemma evalExpr_expand (inv : Invocation) : evalExpr (expand inv) = inv.variant := rfl

/-- Characterization of type-checking the expansion: the path must resolve,
the generic-argument count must match, and the variant pattern must check. -/
lemma typecheck_expand (sc : Scope) (inv : Invocation) :
    typecheckExpr sc (expand inv)
      = match resolveEnum sc inv.path with
        | none => false
        | some E => genericsArityOk E inv.generics && variantPatternOk E inv.variant := by
  simp only [typecheckExpr, expand, List.all_cons, List.all_nil, typecheckItem,
    typecheckFnItem, typecheckMatch, namesDistinct, List.map_cons, List.map_nil,
    List.contains_nil, Bool.not_false, Bool.true_and, Bool.and_true]
  cases h : resolveEnum sc inv.path with
  | none => simp
  | some E => simp

/-- The check `variantPatternOk` only depends on variant names and visibilities, never
on data shapes. -/
lemma variantPatternOk_congr (E E' : EnumDecl)
    (h : E.variants.map (fun w => (w.name, w.visible))
        = E'.variants.map (fun w => (w.name, w.visible))) (v : String) :
    variantPatternOk E v = variantPatternOk E' v := by
  unfold variantPatternOk
  have key : ∀ (l : List VariantDecl),
      l.any (fun w => w.name == v && w.visible)
        = (l.map (fun w => (w.name, w.visible))).any (fun q => q.1 == v && q.2) := by
    intro l
    induction l with
    | nil => rfl
    | cons w rest ih => simp [ih]
  rw [key, key, h]

/-- The check `genericsArityOk` only depends on the enum's arity. -/
lemma genericsArityOk_congr (E E' : EnumDecl) (h : E.arity = E'.arity)
    (g : Option (List Ty)) : genericsArityOk E g = genericsArityOk E' g := by
  cases g <;> simp [genericsArityOk, h]

/-- C1: For every enumerated type `E` and every variant `V` declared on `E`
and visible at the call site, the invocation `variant!(V @ E)` compiles and
evaluates to a static string textually equal to `V`'s source spelling,
regardless of whether `V` carries no data, tuple data, or named-field data
(the variant's `shape` is universally quantified and unconstrained). -/
theorem variant_roundtrip_identity (sc : Scope) (inv : Invocation) (E : EnumDecl)
    (hres : resolveEnum sc inv.path = some E)
    (hgen : genericsArityOk E inv.generics = true)
    (v : VariantDecl) (hv : v ∈ E.variants) (hname : v.name = inv.variant)
    (hvis : v.visible = true) :
    compileInv sc inv = some inv.variant := by
  have hpat : variantPatternOk E inv.variant = true := by
    simp only [variantPatternOk, List.any_eq_true, Bool.and_eq_true, beq_iff_eq]
    exact ⟨v, hv, hname, hvis⟩
  unfold compileInv
  rw [typecheck_expand, hres]
  simp [hgen, hpat, evalExpr_expand]

/-- Witness for C1 on Scenario A's `Baz { x: i32 }`. -/
theorem variant_roundtrip_identity_witness :
    resolveEnum exampleScope ["Enum"] = some scenarioEnum
    ∧ compileInv exampleScope ⟨"Baz", ["Enum"], none⟩ = some "Baz" :=
  ⟨by decide,
    variant_roundtrip_identity exampleScope ⟨"Baz", ["Enum"], none⟩ scenarioEnum
      (by decide) (by decide)
      ⟨"Baz", FieldShape.record [("x", Ty.i32)], true⟩ (by decide) rfl rfl⟩

/-- C4: The compiled result of `variant!(V @ E<...>)` is independent of which
concrete type arguments are supplied: any two generic-argument lists of the
same length give literally the same compilation outcome. -/
theorem variant_generic_indifference (sc : Scope) (v : String) (p : List String)
    (a1 a2 : List Ty) (hlen : a1.length = a2.length) :
    compileInv sc ⟨v, p, some a1⟩ = compileInv sc ⟨v, p, some a2⟩ := by
  unfold compileInv
  rw [typecheck_expand, typecheck_expand]
  cases h : resolveEnum sc p <;>
    simp_all [genericsArityOk, evalExpr_expand, hlen]

/-- Witness for C4 on Scenario B: `GenericEnum<(), ()>` versus
`GenericEnum<i32, i64>`. -/
theorem variant_generic_indifference_witness :
    [Ty.unitTy, Ty.unitTy].length = [Ty.i32, Ty.i64].length
    ∧ compileInv exampleScope ⟨"Foo", ["GenericEnum"], some [Ty.unitTy, Ty.unitTy]⟩
        = compileInv exampleScope ⟨"Foo", ["GenericEnum"], some [Ty.i32, Ty.i64]⟩ :=
  ⟨rfl,
    variant_generic_indifference exampleScope "Foo" ["GenericEnum"]
      [Ty.unitTy, Ty.unitTy] [Ty.i32, Ty.i64] rfl⟩

/-- C5: Two invocations naming the same variant through two different paths
that resolve to the same declaration (e.g. a nested path and a direct
re-export) have literally the same compilation outcome. -/
theorem variant_path_indifference (sc : Scope) (v : String) (p1 p2 : List String)
    (g : Option (List Ty)) (h : resolveEnum sc p1 = resolveEnum sc p2) :
    compileInv sc ⟨v, p1, g⟩ = compileInv sc ⟨v, p2, g⟩ := by
  unfold compileInv
  rw [typecheck_expand, typecheck_expand]
  simp only []
  rw [h]
  cases resolveEnum sc p2 <;> simp [evalExpr_expand]

/-- Witness for C5: `fuga::Enum<()>` versus its direct re-export `Enum2<()>`. -/
theorem variant_path_indifference_witness :
    resolveEnum exampleScope ["fuga", "Enum"] = resolveEnum exampleScope ["Enum2"]
    ∧ compileInv exampleScope ⟨"Foo", ["fuga", "Enum"], some [Ty.unitTy]⟩
        = compileInv exampleScope ⟨"Foo", ["Enum2"], some [Ty.unitTy]⟩ :=
  ⟨by decide,
    variant_path_indifference exampleScope "Foo" ["fuga", "Enum"] ["Enum2"]
      (some [Ty.unitTy]) (by decide)⟩

/-- C2: An invocation with an unresolvable type, or whose variant is not
declared (or declared but not visible), fails the build (`none`); there is no
partial success — a `some` outcome implies every check passed and the value
is exactly the literal — and the expansion's runtime evaluation is total
(always the literal, never a panic). -/
theorem variant_failure_semantics (sc : Scope) (inv : Invocation) :
    (resolveEnum sc inv.path = none → compileInv sc inv = none)
    ∧ (∀ E, resolveEnum sc inv.path = some E →
        (∀ w ∈ E.variants, w.name ≠ inv.variant ∨ w.visible = false) →
        compileInv sc inv = none)
    ∧ (∀ s, compileInv sc inv = some s →
        s = inv.variant
        ∧ ∃ E, resolveEnum sc inv.path = some E
            ∧ genericsArityOk E inv.generics = true
            ∧ ∃ w ∈ E.variants, w.name = inv.variant ∧ w.visible = true)
    ∧ evalExpr (expand inv) = inv.variant := by
  refine ⟨?_, ?_, ?_, evalExpr_expand inv⟩
  · intro hres
    unfold compileInv
    rw [typecheck_expand, hres]
    simp
  · intro E hres hnone
    have hpat : variantPatternOk E inv.variant = false := by
      apply Bool.eq_false_iff.mpr
      intro hcontra
      simp only [variantPatternOk, List.any_eq_true, Bool.and_eq_true, beq_iff_eq] at hcontra
      obtain ⟨w, hw, hn, hv⟩ := hcontra
      rcases hnone w hw with h1 | h1
      · exact h1 hn
      · rw [h1] at hv
        exact Bool.false_ne_true hv
    unfold compileInv
    rw [typecheck_expand, hres]
    simp [hpat]
  · intro s hs
    unfold compileInv at hs
    rw [typecheck_expand] at hs
    cases hres : resolveEnum sc inv.path with
    | none =>
        rw [hres] at hs
        simp at hs
    | some E =>
        rw [hres] at hs
        simp only [] at hs
        split at hs
        · rename_i hb
          rw [Bool.and_eq_true] at hb
          obtain ⟨hg, hp⟩ := hb
          simp only [variantPatternOk, List.any_eq_true, Bool.and_eq_true, beq_iff_eq] at hp
          obtain ⟨w, hw, hn, hv⟩ := hp
          have hsval : s = inv.variant := by
            rw [evalExpr_expand] at hs
            exact (Option.some.inj hs).symm
          exact ⟨hsval, E, rfl, hg, w, hw, hn, hv⟩
        · exact absurd hs (by simp)

/-- Witness for C2: the crate doc's `variant!(Hoge @ Enum)` fails to build. -/
theorem variant_failure_semantics_witness :
    resolveEnum exampleScope ["Enum"] = some scenarioEnum
    ∧ compileInv exampleScope ⟨"Hoge", ["Enum"], none⟩ = none :=
  ⟨by decide,
    (variant_failure_semantics exampleScope ⟨"Hoge", ["Enum"], none⟩).2.1 scenarioEnum
      (by decide) (by decide)⟩

/-- C6: The existence check ignores the data shape of every variant — two
enums agreeing on variant names, visibilities and arity but differing
arbitrarily in shapes compile identically — and on Scenario A's
`Foo` / `Bar(u8)` / `Baz { x: i32 }` the three invocations yield
`"Foo"`, `"Bar"`, `"Baz"`. -/
theorem variant_shape_uniformity :
    (∀ (p : List String) (inv : Invocation) (E E' : EnumDecl),
        E.arity = E'.arity →
        E.variants.map (fun w => (w.name, w.visible))
          = E'.variants.map (fun w => (w.name, w.visible)) →
        compileInv ⟨[(p, E)]⟩ inv = compileInv ⟨[(p, E')]⟩ inv)
    ∧ compileInv exampleScope ⟨"Foo", ["Enum"], none⟩ = some "Foo"
    ∧ compileInv exampleScope ⟨"Bar", ["Enum"], none⟩ = some "Bar"
    ∧ compileInv exampleScope ⟨"Baz", ["Enum"], none⟩ = some "Baz" := by
  refine ⟨?_, by decide, by decide, by decide⟩
  intro p inv E E' har hvar
  unfold compileInv
  rw [typecheck_expand, typecheck_expand]
  have hres : ∀ d : EnumDecl, resolveEnum ⟨[(p, d)]⟩ inv.path
      = if p == inv.path then some d else none := by
    intro d
    by_cases hb : p == inv.path
    · simp [resolveEnum, List.find?, hb]
    · simp [resolveEnum, List.find?, hb]
  rw [hres E, hres E']
  by_cases hb : p == inv.path
  · simp only [hb, if_true]
    rw [genericsArityOk_congr E E' har, variantPatternOk_congr E E' hvar]
  · simp [hb]

/-- Scenario A's enum with every variant's data shape replaced by a
different one (same names, same visibilities, same arity). -/
def reshapedEnum : EnumDecl :=
  { arity := 0
    variants :=
      [ { name := "Foo", shape := FieldShape.tuple [Ty.i64], visible := true }
      , { name := "Bar", shape := FieldShape.unit, visible := true }
      , { name := "Baz", shape := FieldShape.tuple [Ty.u8], visible := true } ] }

/-- Witness for C6: Scenario A's enum against a reshaped copy. -/
theorem variant_shape_uniformity_witness :
    (scenarioEnum.arity = reshapedEnum.arity
      ∧ scenarioEnum.variants.map (fun w => (w.name, w.visible))
          = reshapedEnum.variants.map (fun w => (w.name, w.visible)))
    ∧ compileInv ⟨[(["Enum"], scenarioEnum)]⟩ ⟨"Baz", ["Enum"], none⟩
        = compileInv ⟨[(["Enum"], reshapedEnum)]⟩ ⟨"Baz", ["Enum"], none⟩ :=
  ⟨⟨rfl, by decide⟩,
    variant_shape_uniformity.1 ["Enum"] ⟨"Baz", ["Enum"], none⟩ scenarioEnum reshapedEnum
      rfl (by decide)⟩

/-- C7: The expansion's value is const-evaluable (it collapses to a string
literal; the dead item contributes no computation), equals the stringified
identifier, and whenever the invocation compiles, its value is that
compile-time-fixed literal. -/
theorem variant_const_output (inv : Invocation) :
    isConstEvaluable (expand inv) = true
    ∧ evalExpr (expand inv) = stringify inv.variant
    ∧ ∀ sc : Scope, compileInv sc inv ≠ none →
        compileInv sc inv = some (stringify inv.variant) := by
  refine ⟨rfl, rfl, ?_⟩
  intro sc h
  by_cases hb : typecheckExpr sc (expand inv) = true
  · simp only [compileInv, hb, if_true]
    rfl
  · rw [Bool.not_eq_true] at hb
    exact absurd (by simp [compileInv, hb]) h

/-- Witness for C7 at `variant!(Foo @ Enum)`. -/
theorem variant_const_output_witness :
    compileInv exampleScope ⟨"Foo", ["Enum"], none⟩ ≠ none
    ∧ compileInv exampleScope ⟨"Foo", ["Enum"], none⟩ = some (stringify "Foo") :=
  ⟨by decide,
    (variant_const_output ⟨"Foo", ["Enum"], none⟩).2.2 exampleScope (by decide)⟩

/-- C8: The value of a compiling invocation is determined solely by the
variant identifier: evaluating the expansion discards the synthesized items
(the `matches!` check's boolean is never consulted and the routine is never
invoked), every compiled value is the stringification of the first
identifier, and two invocations sharing a variant identifier — in any scopes,
with any type references and generic arguments — have equal values. -/
theorem variant_value_from_identifier_only :
    (∀ (items : List Item) (s : String), evalExpr (Expr.block items (Expr.strLit s)) = s)
    ∧ (∀ (sc : Scope) (inv : Invocation) (s : String),
        compileInv sc inv = some s → s = stringify inv.variant)
    ∧ (∀ (sc1 sc2 : Scope) (i1 i2 : Invocation) (s1 s2 : String),
        i1.variant = i2.variant →
        compileInv sc1 i1 = some s1 → compileInv sc2 i2 = some s2 → s1 = s2) := by
  have hval : ∀ (sc : Scope) (inv : Invocation) (s : String),
      compileInv sc inv = some s → s = stringify inv.variant := by
    intro sc inv s h
    unfold compileInv at h
    split at h
    · exact (Option.some.inj h).symm
    · exact absurd h (by simp)
  refine ⟨fun items s => rfl, hval, ?_⟩
  intro sc1 sc2 i1 i2 s1 s2 hvar h1 h2
  rw [hval sc1 i1 s1 h1, hval sc2 i2 s2 h2]
  exact congrArg stringify hvar

/-- Witness for C8: the same variant name checked against two different
types with different generic arguments evaluates to the same string. -/
theorem variant_value_from_identifier_only_witness :
    ((⟨"Foo", ["Enum"], none⟩ : Invocation).variant
        = (⟨"Foo", ["GenericEnum"], some [Ty.i32, Ty.i64]⟩ : Invocation).variant
      ∧ compileInv exampleScope ⟨"Foo", ["Enum"], none⟩ = some "Foo"
      ∧ compileInv exampleScope ⟨"Foo", ["GenericEnum"], some [Ty.i32, Ty.i64]⟩ = some "Foo")
    ∧ ("Foo" : String) = "Foo" :=
  ⟨⟨rfl, by decide, by decide⟩,
    variant_value_from_identifier_only.2.2 exampleScope exampleScope
      ⟨"Foo", ["Enum"], none⟩ ⟨"Foo", ["GenericEnum"], some [Ty.i32, Ty.i64]⟩
      "Foo" "Foo" rfl (by decide) (by decide)⟩

/-- Each expansion is an expression statement: it introduces no item name
into the caller's enclosing block. -/
lemma exprStmt_introduces_no_names (invs : List Invocation) :
    ((invs.map (fun i => Stmt.exprStmt (expand i))).map stmtTopLevelNames).flatten = [] := by
  induction invs with
  | nil => rfl
  | cons i rest ih => simp [stmtTopLevelNames, ih]

/-- Checking the caller's statements one by one is checking each expansion. -/
lemma all_typecheck_map (sc : Scope) (invs : List Invocation) :
    (invs.map (fun i => Stmt.exprStmt (expand i))).all (typecheckStmt sc)
      = invs.all (fun i => typecheckExpr sc (expand i)) := by
  induction invs with
  | nil => rfl
  | cons i rest ih => simp [typecheckStmt, ih]

/-- C10: Every expansion encloses `assert_variant_exists` in its own block,
so no invocation adds any binding visible in the caller's scope, and any
number of invocations in the same enclosing block — same or different types —
compile with no name collision: the block compiles exactly when each
invocation compiles on its own. -/
theorem variant_no_scope_pollution (sc : Scope) (invs : List Invocation) :
    ((invs.map (fun i => Stmt.exprStmt (expand i))).map stmtTopLevelNames).flatten = []
    ∧ typecheckCallerBlock sc (invs.map (fun i => Stmt.exprStmt (expand i)))
        = invs.all (fun i => typecheckExpr sc (expand i)) := by
  refine ⟨exprStmt_introduces_no_names invs, ?_⟩
  unfold typecheckCallerBlock
  rw [exprStmt_introduces_no_names invs]
  simp only [namesDistinct, Bool.true_and]
  exact all_typecheck_map sc invs

/-- The `$(...),+` repetition never matches an empty generic-argument list. -/
lemma parseGenerics_nonempty (ts : List Token) (args : List Ty) (rem : List Token)
    (h : parseGenerics ts = some (args, rem)) : args ≠ [] := by
  unfold parseGenerics at h
  repeat' split at h
  all_goals simp_all
  all_goals exact fun hc => List.cons_ne_nil _ _ (h.1.trans hc)

/-- Any successfully parsed invocation starts with the variant identifier
followed by `@`, and its generic-argument list, when present, is nonempty. -/
lemma parse_sound (ts : List Token) (inv : Invocation) (h : parse ts = some inv) :
    (∃ rest, ts = Token.ident inv.variant :: Token.atSign :: rest)
    ∧ ∀ l, inv.generics = some l → l ≠ [] := by
  unfold parse at h
  repeat' split at h
  all_goals simp_all
  · subst h
    exact ⟨rfl, fun l hl => absurd hl (by simp)⟩
  · rename_i hpg hrem
    subst h
    refine ⟨rfl, fun l hl => ?_⟩
    rw [← Option.some.inj hl]
    exact parseGenerics_nonempty _ _ _ hpg

/-- C3: For every invocation that compiles, the characters of the produced
text are exactly the characters of the variant identifier as spelled at the
call site (the first token of the invocation): no surrounding whitespace, no
path qualification, no case conversion, no added or removed characters. -/
theorem variant_spelling_fidelity (sc : Scope) (ts : List Token) (s : String)
    (h : compileTokens sc ts = some s) :
    ∃ v rest, ts = Token.ident v :: Token.atSign :: rest ∧ s = v ∧ s.data = v.data := by
  unfold compileTokens at h
  cases hp : parse ts with
  | none =>
      rw [hp] at h
      have h' : (none : Option String) = some s := h
      exact absurd h' (by simp)
  | some inv =>
      rw [hp] at h
      have h' : compileInv sc inv = some s := h
      obtain ⟨⟨rest, hts⟩, _⟩ := parse_sound ts inv hp
      have hs : s = inv.variant := by
        unfold compileInv at h'
        split at h'
        · exact (Option.some.inj h').symm
        · exact absurd h' (by simp)
      exact ⟨inv.variant, rest, hts, hs, by rw [hs]⟩

/-- Witness for C3 on the tokens of `variant!(Foo @ Enum)`. -/
theorem variant_spelling_fidelity_witness :
    compileTokens exampleScope [Token.ident "Foo", Token.atSign, Token.ident "Enum"]
        = some "Foo"
    ∧ ∃ v rest, [Token.ident "Foo", Token.atSign, Token.ident "Enum"]
        = Token.ident v :: Token.atSign :: rest ∧ "Foo" = v
          ∧ ("Foo" : String).data = v.data :=
  ⟨by decide,
    variant_spelling_fidelity exampleScope
      [Token.ident "Foo", Token.atSign, Token.ident "Enum"] "Foo" (by decide)⟩

/-- C9: When an angle-bracketed generic-argument list is present it holds at
least one type argument and no trailing comma — `variant!(Foo @ E<>)` and
`variant!(Foo @ E<i32,>)` are rejected at expansion time as parse failures —
while omitting the angle brackets entirely (or supplying `<i32>`) parses. -/
theorem variant_generics_grammar :
    (∀ (ts : List Token) (inv : Invocation) (l : List Ty),
        parse ts = some inv → inv.generics = some l → l ≠ [])
    ∧ parse [Token.ident "Foo", Token.atSign, Token.ident "E",
        Token.langle, Token.rangle] = none
    ∧ parse [Token.ident "Foo", Token.atSign, Token.ident "E", Token.langle,
        Token.tyTok Ty.i32, Token.comma, Token.rangle] = none
    ∧ parse [Token.ident "Foo", Token.atSign, Token.ident "E"]
        = some ⟨"Foo", ["E"], none⟩
    ∧ parse [Token.ident "Foo", Token.atSign, Token.ident "E", Token.langle,
        Token.tyTok Ty.i32, Token.rangle] = some ⟨"Foo", ["E"], some [Ty.i32]⟩ := by
  refine ⟨?_, by decide, by decide, by decide, by decide⟩
  intro ts inv l hp hg
  exact (parse_sound ts inv hp).2 l hg

/-- Witness for C9 on `variant!(Foo @ E<i32>)`. -/
theorem variant_generics_grammar_witness :
    (parse [Token.ident "Foo", Token.atSign, Token.ident "E", Token.langle,
        Token.tyTok Ty.i32, Token.rangle] = some ⟨"Foo", ["E"], some [Ty.i32]⟩
      ∧ (Invocation.mk "Foo" ["E"] (some [Ty.i32])).generics = some [Ty.i32])
    ∧ [Ty.i32] ≠ [] :=
  ⟨⟨by decide, rfl⟩,
    variant_generics_grammar.1
      [Token.ident "Foo", Token.atSign, Token.ident "E", Token.langle,
        Token.tyTok Ty.i32, Token.rangle]
      ⟨"Foo", ["E"], some [Ty.i32]⟩ [Ty.i32] (by decide) rfl⟩
